import Mathlib

/-!
Shallow embedding of the Leather-Drafts geometry core
(`src/engine/geometry/eval.py`, `src/engine/geometry/flatten.py`,
`src/engine/dsl/dsl_parser.py`, `src/engine/transforms/seam_allowance.py`,
`src/engine/cli/main.py`).

Modelling conventions:
* Python numbers (ints and IEEE doubles) are modelled as exact rationals `ℚ`;
  the embedded arithmetic is the exact-value semantics of the source.
* Python exceptions are modelled by `Except Err`; the constructors of `Err`
  mirror the exception classes the source can raise.
* `math.hypot` distances are irrational; the source only ever compares
  `max(dist1, dist2) <= tol`, which is encoded by the equivalent rational
  test `0 ≤ tol ∧ dist1² ≤ tol² ∧ dist2² ≤ tol²`.
* The unbounded `while` loop of `flatten_cubic` is embedded with explicit
  fuel (one unit per loop iteration); `none` means the loop has not finished
  within the given fuel.
-/
/-- Error kinds, mirroring the Python exception classes raised by the source:
`ValueError` (with its message), `KeyError` (failed dict lookup, e.g. the
`OPS[type(node.op)]` dispatch), `TypeError` (operand of the wrong runtime
type) and `ZeroDivisionError`. -/
inductive Err where
  | valueError (msg : String)
  | keyError
  | typeError
  | zeroDivisionError
  deriving Repr, DecidableEq

/-- Names of the builtin functions in `ALLOWED` (`eval.py`). -/
inductive Fname where
  | abs | min | max | round
  deriving Repr, DecidableEq

/-- Python runtime values that can flow through `_eval`: numbers, strings,
nested mappings (the `M`/`F`/`O` namespaces) and the allow-listed builtin
functions.  `True`/`False`/`None` constants are not modelled (no expression
in the repository produces them). -/
inductive Value where
  | num (q : ℚ)
  | str (s : String)
  | map (entries : List (String × Value))
  | fn (f : Fname)
  deriving Repr

/-- Binary operator tags of `ast.BinOp`; `other` stands for every operator
class absent from the `OPS` dict (`Mod`, `FloorDiv`, `BitOr`, ...), whose
lookup raises `KeyError`. -/
inductive BOp where
  | add | sub | mult | div | pow | other
  deriving Repr, DecidableEq

/-- Unary operator tags of `ast.UnaryOp`; `other` covers `UAdd`/`Not`/
`Invert`, which are absent from `OPS`. -/
inductive UOp where
  | usub | other
  deriving Repr, DecidableEq

/-- The Python expression AST as produced by `ast.parse(expr, mode="eval")`,
restricted to the node kinds `_eval` inspects.  `other` stands for every
further node kind (lambdas, comparisons, list displays, ...), which `_eval`
rejects with `ValueError("bad expression")`.  A `call` records the keyword
arguments of `ast.Call.keywords` even though `_eval` never reads them. -/
inductive Expr where
  | num (q : ℚ)
  | strLit (s : String)
  | binop (op : BOp) (l r : Expr)
  | unop (op : UOp) (e : Expr)
  | name (id : String)
  | call (f : Expr) (args : List Expr) (kwargs : List (String × Expr))
  | attr (base : Expr) (field : String)
  | other
  deriving Repr

/-- Environment: a Python `Dict[str, Any]`, modelled as an association list
with first-match lookup (later `env[k] = v` updates shadow via cons). -/
abbrev EnvT := List (String × Value)

/-- First-match lookup in an association list (Python dict membership). -/
def envGet (env : EnvT) (k : String) : Option Value :=
  match env with
  | [] => Option.none
  | (k1, v) :: rest => if k1 = k then Option.some v else envGet rest k

/-- Round half to even to an integer: the semantics of Python's builtin
`round(x)` on exact values. -/
def roundHalfEven (q : ℚ) : ℤ :=
  let f : ℤ := ⌊q⌋
  let r : ℚ := q - f
  if r < 1/2 then f
  else if 1/2 < r then f + 1
  else if Even f then f else f + 1

/-- `round(x, n)` for integer `n` (Python allows negative `n`). -/
def roundDigits (q : ℚ) (n : ℤ) : ℚ :=
  (roundHalfEven (q * (10 : ℚ) ^ n) : ℚ) / (10 : ℚ) ^ n

/-- Apply a binary operator from `OPS` to two runtime values.
Cases the repository's expressions cannot reach are collapsed to
`TypeError`: string repetition (`str * int`) and string comparison are not
modelled.  String concatenation via `+` is modelled since `op.add` supports
it.  `x ** y` is modelled for integer exponents; a fractional exponent
generally denotes an irrational value, outside the exact-rational model, and
is mapped to `typeError`. -/
def applyBin (o : BOp) (l r : Value) : Except Err Value :=
  match o, l, r with
  | .add, .num x, .num y => .ok (.num (x + y))
  | .add, .str s, .str t => .ok (.str (s ++ t))
  | .sub, .num x, .num y => .ok (.num (x - y))
  | .mult, .num x, .num y => .ok (.num (x * y))
  | .div, .num x, .num y =>
      if y = 0 then .error .zeroDivisionError else .ok (.num (x / y))
  | .pow, .num x, .num y =>
      if y.den = 1 then
        if 0 ≤ y.num then .ok (.num (x ^ y.num.toNat))
        else if x = 0 then .error .zeroDivisionError
        else .ok (.num (x ^ y.num))
      else .error .typeError
  | _, _, _ => .error .typeError

/-- Apply a unary operator from `OPS`. -/
def applyUn (o : UOp) (v : Value) : Except Err Value :=
  match o, v with
  | .usub, .num x => .ok (.num (-x))
  | _, _ => .error .typeError

/-- `min`/`max` folding over numeric arguments. -/
def foldNums (f : ℚ → ℚ → ℚ) (x : ℚ) (rest : List Value) : Except Err ℚ :=
  match rest with
  | [] => .ok x
  | .num y :: t => foldNums f (f x y) t
  | _ :: _ => .error .typeError

/-- Apply an allow-listed builtin to positional arguments.
`abs` needs one numeric argument; `min`/`max` need at least two (a single
non-iterable number raises `TypeError` in Python; iterating a single string
argument is not modelled); `round` takes a number and optionally an integer
digit count. -/
def applyFn (f : Fname) (args : List Value) : Except Err Value :=
  match f, args with
  | .abs, [.num x] => .ok (.num |x|)
  | .min, .num x :: y :: rest => foldNums Min.min x (y :: rest) >>= fun r => .ok (.num r)
  | .max, .num x :: y :: rest => foldNums Max.max x (y :: rest) >>= fun r => .ok (.num r)
  | .round, [.num x] => .ok (.num (roundHalfEven x : ℤ))
  | .round, [.num x, .num n] =>
      if n.den = 1 then .ok (.num (roundDigits x n.num)) else .error .typeError
  | _, _ => .error .typeError

/-- Calling a non-function value raises `TypeError`. -/
def applyCall (f : Value) (args : List Value) : Except Err Value :=
  match f with
  | .fn fn => applyFn fn args
  | _ => .error .typeError

/-- Resolve a bare name: first the environment, then the `ALLOWED` builtins,
otherwise `ValueError("name not allowed: ...")` (`eval.py` lines 21-24). -/
def lookupName (env : EnvT) (id : String) : Except Err Value :=
  match envGet env id with
  | Option.some v => .ok v
  | Option.none =>
    if id = "abs" then .ok (.fn .abs)
    else if id = "min" then .ok (.fn .min)
    else if id = "max" then .ok (.fn .max)
    else if id = "round" then .ok (.fn .round)
    else .error (.valueError ("name not allowed: " ++ id))

/-- Attribute access `base[attr]` (`eval.py` lines 29-32): the base must be
a mapping, else `TypeError`; a missing key raises `KeyError`. -/
def getAttr (base : Value) (field : String) : Except Err Value :=
  match base with
  | .map entries =>
      match envGet entries field with
      | Option.some v => .ok v
      | Option.none => .error .keyError
  | _ => .error .typeError

mutual

/-- The recursive evaluator `_eval` of `eval.py`.  Note that in a `BinOp`
or `UnaryOp` the `OPS[type(node.op)]` dict lookup happens before the
operands are evaluated, so an unknown operator fails regardless of its
operands; and that the keyword arguments of a `Call` are never read. -/
def evalAst : Expr → EnvT → Except Err Value
  | .num q, _ => .ok (.num q)
  | .strLit s, _ => .ok (.str s)
  | .binop op l r, env =>
      match op with
      | .other => .error .keyError
      | _ => do
        let lv ← evalAst l env
        let rv ← evalAst r env
        applyBin op lv rv
  | .unop op e, env =>
      match op with
      | .other => .error .keyError
      | _ => do
        let v ← evalAst e env
        applyUn op v
  | .name id, env => lookupName env id
  | .call f args _kwargs, env => do
      let fv ← evalAst f env
      let avs ← evalList args env
      applyCall fv avs
  | .attr base field, env => do
      let bv ← evalAst base env
      getAttr bv field
  | .other, _ => .error (.valueError "bad expression")

/-- Evaluate a list of positional arguments left to right. -/
def evalList : List Expr → EnvT → Except Err (List Value)
  | [], _ => .ok []
  | a :: rest, env => do
      let v ← evalAst a env
      let vs ← evalList rest env
      .ok (v :: vs)
end

/-!  Python string primitives.  The library's `String.splitOn`/`String.trim`
are compiled by well-founded recursion and do not reduce inside the kernel,
so the handful of `str` operations the source uses are re-implemented here
by structural recursion on the character list, with Python's semantics. -/
/-- Python's `s.split(sep)` for a one-character separator: every occurrence
splits, empty fields are kept (`"a,,b" → ["a","","b"]`), the empty string
gives `[""]`. -/
def splitChar (sep : Char) : List Char → List (List Char)
  | [] => [[]]
  | c :: rest =>
    if c = sep then [] :: splitChar sep rest
    else
      match splitChar sep rest with
      | [] => [[c]]
      | g :: gs => (c :: g) :: gs

/-- Python's `s.split(sep)` for a two-character separator (only `"->"` is
used by the source). -/
def splitPair (s1 s2 : Char) : List Char → List (List Char)
  | [] => [[]]
  | [c] => [[c]]
  | c :: d :: rest =>
    if c = s1 ∧ d = s2 then
      match splitPair s1 s2 rest with
      | [] => [] :: [[]]
      | gs => [] :: gs
    else
      match splitPair s1 s2 (d :: rest) with
      | [] => [[c]]
      | g :: gs => (c :: g) :: gs

/-- Python's `s.strip()`: remove leading and trailing whitespace. -/
def pyStrip (s : String) : String :=
  ⟨((s.toList.dropWhile Char.isWhitespace).reverse.dropWhile Char.isWhitespace).reverse⟩

/-- Python's `s.startswith(pre)`. -/
def pyStarts (s pre : String) : Bool :=
  pre.toList.isPrefixOf s.toList

/-- Python's `s[n:]`. -/
def pyDrop (s : String) (n : ℕ) : String :=
  ⟨s.toList.drop n⟩

/-- Rejoin groups with a one-character separator (used to model the
`maxsplit=1` behaviour of `s.split(sep, 1)`). -/
def joinChar (sep : Char) : List (List Char) → List Char
  | [] => []
  | [g] => g
  | g :: gs => g ++ sep :: joinChar sep gs

/-- Python's `s.split(sep, 1)` for a one-character separator: one element
when the separator is absent, otherwise the head plus the rejoined
remainder. -/
def splitOnce (s : String) (sep : Char) : List String :=
  match splitChar sep s.toList with
  | [] => [s]
  | [x] => [⟨x⟩]
  | x :: rest => [⟨x⟩, ⟨joinChar sep rest⟩]

/-- The digits of a `List Char`, as a natural number, together with how many
digits were read; fails on a non-digit or on the empty list. -/
def digitsVal : List Char → Option (ℕ × ℕ)
  | [] => Option.none
  | [c] => if c.isDigit then Option.some (c.toNat - '0'.toNat, 1) else Option.none
  | c :: rest =>
      if c.isDigit then
        match digitsVal rest with
        | Option.some (v, k) => Option.some ((c.toNat - '0'.toNat) * 10 ^ k + v, k + 1)
        | Option.none => Option.none
      else Option.none

/-- Model of Python's `float(str)` for plain decimal literals: optional
surrounding whitespace, optional sign, digits with an optional fractional
part (at least one digit overall).  Exponent/`inf`/`nan` forms never occur
in the repository's inputs and are not modelled. -/
def pyFloat (s : String) : Option ℚ :=
  let t := (pyStrip s).toList
  let (sgn, body) :=
    match t with
    | '-' :: r => ((-1 : ℚ), r)
    | '+' :: r => ((1 : ℚ), r)
    | r => ((1 : ℚ), r)
  match splitChar '.' body with
  | [intPart] =>
      match digitsVal intPart with
      | Option.some (v, _) => Option.some (sgn * v)
      | Option.none => Option.none
  | [intPart, fracPart] =>
      match digitsVal intPart, digitsVal fracPart with
      | Option.some (v, _), Option.some (w, k) =>
          Option.some (sgn * (v + (w : ℚ) / 10 ^ k))
      | Option.some (v, _), Option.none =>
          if fracPart = [] then Option.some (sgn * v) else Option.none
      | Option.none, Option.some (w, k) =>
          if intPart = [] then Option.some (sgn * ((w : ℚ) / 10 ^ k)) else Option.none
      | Option.none, Option.none => Option.none
  | _ => Option.none

/-- The final `float(...)` coercion of `eval_expr`: a number passes through,
a string is parsed by `float(str)` (raising `ValueError` when unparsable),
any other value raises `TypeError`. -/
def floatOfValue : Value → Except Err ℚ
  | .num q => .ok q
  | .str s =>
      match pyFloat s with
      | Option.some q => .ok q
      | Option.none => .error (.valueError ("could not convert string to float: " ++ s))
  | _ => .error .typeError

/-- `eval_expr` of `eval.py`: evaluate the parsed AST, then coerce the
result with `float(...)`.  (The `ast.parse` step is elided: the embedding
works directly on ASTs.) -/
def evalExpr (e : Expr) (env : EnvT) : Except Err ℚ :=
  evalAst e env >>= floatOfValue

/-- A planar point (exact coordinates in millimeters). -/
abbrev Pt := ℚ × ℚ

/-- A cubic Bezier segment `(a, b, c, d)` as pushed on the subdivision
stack of `flatten_cubic`. -/
abbrev Seg := Pt × Pt × Pt × Pt

/-- The squared value of `_dist_point_to_segment p a b` (`flatten.py`
lines 5-13): squared distance from `p` to the closed segment `a`–`b`,
computed via the clamped orthogonal projection.  The source returns
`math.hypot` of the residual; the square is kept so all arithmetic stays
rational. -/
def distSqToSegment (p a b : Pt) : ℚ :=
  let dx := b.1 - a.1
  let dy := b.2 - a.2
  if dx = 0 ∧ dy = 0 then (p.1 - a.1) ^ 2 + (p.2 - a.2) ^ 2
  else
    let t0 := ((p.1 - a.1) * dx + (p.2 - a.2) * dy) / (dx * dx + dy * dy)
    let t := max 0 (min 1 t0)
    let px := a.1 + t * dx
    let py := a.2 + t * dy
    (p.1 - px) ^ 2 + (p.2 - py) ^ 2

/-- The acceptance test `chord_err <= tol` of `flatten_cubic`, where
`chord_err = max(dist(b,a,d), dist(c,a,d))`.  Since both distances are
square roots of the rational `distSqToSegment` values, the comparison is
equivalent to `0 ≤ tol` together with both squared distances `≤ tol²`. -/
def flatOk (s : Seg) (tol : ℚ) : Prop :=
  0 ≤ tol ∧ distSqToSegment s.2.1 s.1 s.2.2.2 ≤ tol ^ 2 ∧
    distSqToSegment s.2.2.1 s.1 s.2.2.2 ≤ tol ^ 2

instance (s : Seg) (tol : ℚ) : Decidable (flatOk s tol) := by
  unfold flatOk; infer_instance

/-- Midpoint of two points (the de Casteljau averaging step). -/
def mid (p q : Pt) : Pt := ((p.1 + q.1) / 2, (p.2 + q.2) / 2)

/-- Left half of a segment under de Casteljau bisection:
`(a, ab, abc, abcd)` in the source's names. -/
def segL (s : Seg) : Seg :=
  let (a, b, c, d) := s
  let ab := mid a b
  let bc := mid b c
  let cd := mid c d
  let abc := mid ab bc
  let bcd := mid bc cd
  let abcd := mid abc bcd
  (a, ab, abc, abcd)

/-- Right half of a segment under de Casteljau bisection:
`(abcd, bcd, cd, d)` in the source's names. -/
def segR (s : Seg) : Seg :=
  let (a, b, c, d) := s
  let ab := mid a b
  let bc := mid b c
  let cd := mid c d
  let abc := mid ab bc
  let bcd := mid bc cd
  let abcd := mid abc bcd
  (abcd, bcd, cd, d)

/-- The `while stack:` loop of `flatten_cubic` (`flatten.py` lines 17-33),
with explicit fuel counting loop iterations.  The head of the list is the
top of the Python stack, so the two pushes
`stack.append((abcd,bcd,cd,d)); stack.append((a,ab,abc,abcd))` become
`segL s :: segR s :: rest`.  `none` means the fuel ran out before the
stack emptied. -/
def flattenLoop (tol : ℚ) : Nat → List Seg → List Pt → Option (List Pt)
  | _, [], out => Option.some out
  | 0, _ :: _, _ => Option.none
  | fuel + 1, s :: rest, out =>
    if flatOk s tol then flattenLoop tol fuel rest (out ++ [s.2.2.2])
    else flattenLoop tol fuel (segL s :: segR s :: rest) out

/-- `flatten_cubic(p0, p1, p2, p3, tol)`: run the subdivision loop on the
single initial segment, with `out` seeded to `[p0]`. -/
def flattenCubic (fuel : Nat) (p0 p1 p2 p3 : Pt) (tol : ℚ) : Option (List Pt) :=
  flattenLoop tol fuel [(p0, p1, p2, p3)] [p0]

/-- A path command (`PathCmd` dataclass of `dsl_parser.py`, with the
`type` string and `data` dict collapsed into a tagged variant). -/
inductive PathCmd where
  | move (dest : Pt)
  | line (dest : Pt)
  | curve (cp1 cp2 dest : Pt)
  | arc (raw : String)
  | close
  deriving Repr, DecidableEq

/-- The `Piece` dataclass of `dsl_parser.py`. -/
structure Piece where
  name : String
  paths : List PathCmd := []
  notches : List (ℚ × ℚ × String) := []
  drills : List (ℚ × ℚ × String) := []
  grain : List Pt := []
  seam_allowance : Option ℚ := Option.none
  deriving Repr, DecidableEq

/-- `float(tok)` inside the parser: unparsable tokens propagate as
`ValueError`, like Python's `float`. -/
def parseFloat (tok : String) : Except Err ℚ :=
  match pyFloat tok with
  | Option.some q => .ok q
  | Option.none => .error (.valueError ("could not convert string to float: " ++ tok))

/-- `x,y = map(float, s.split(","))`: exactly two comma-separated floats,
anything else raises `ValueError`. -/
def parseXY (s : String) : Except Err Pt :=
  match splitChar ',' s.toList with
  | [xs, ys] => do
      let x ← parseFloat ⟨xs⟩
      let y ← parseFloat ⟨ys⟩
      .ok (x, y)
  | _ => .error (.valueError "unpack")

/-- `label.rstrip('"')`: drop trailing double-quote characters. -/
def rstripQuote (s : String) : String :=
  ⟨(s.toList.reverse.dropWhile (· == '"')).reverse⟩

/-- Parser state: the pieces appended so far and the piece currently being
built.  In the source the current piece is already aliased inside `pieces`
and mutated in place; here it is kept separate and merged on
`PIECE`/`END`/end-of-input, which yields the same final list. -/
structure DState where
  done : List Piece := []
  cur : Option Piece := Option.none
  deriving Repr, DecidableEq

/-- Append the current piece (if any) to the finished list. -/
def DState.flush (st : DState) : List Piece :=
  st.done ++ st.cur.toList

/-- Replace the current piece with an updated one. -/
def DState.withCur (st : DState) (p : Piece) : DState := { st with cur := Option.some p }

/-- One iteration of the `for raw in text.splitlines()` loop of
`parse_dsl` (`dsl_parser.py` lines 36-89): strip the line, skip blanks and
comments, handle `PIECE`/`END`, reject commands outside a block, then
dispatch on the command prefix; any unrecognized line raises
`ValueError(f"Unknown line: {line}")`. -/
def stepLine (st : DState) (raw : String) : Except Err DState :=
  let line := pyStrip raw
  if line = "" || pyStarts line "#" then .ok st
  else if pyStarts line "PIECE " then
    match splitOnce line ' ' with
    | [_, rest] => .ok ⟨st.flush, Option.some { name := pyStrip rest }⟩
    | _ => .error (.valueError "IndexError")
  else if line = "END" then .ok ⟨st.flush, Option.none⟩
  else
    match st.cur with
    | Option.none => .error (.valueError "Command outside of PIECE/END block")
    | Option.some p =>
      if pyStarts line "MOVE " then
        match splitOnce line ' ' with
        | [_, rest] => do
            let pt ← parseXY rest
            .ok (st.withCur { p with paths := p.paths ++ [.move pt] })
        | _ => .error (.valueError "IndexError")
      else if pyStarts line "LINE " then
        match splitOnce line ' ' with
        | [_, rest] => do
            let pt ← parseXY rest
            .ok (st.withCur { p with paths := p.paths ++ [.line pt] })
        | _ => .error (.valueError "IndexError")
      else if pyStarts line "CURVE " then
        match splitOnce line ' ' with
        | [_, body] =>
          match ((splitPair '-' '>' body.toList).map (fun g => pyStrip ⟨g⟩)) with
          | [sa, sb, sc] => do
              let c1 ← parseXY sa
              let c2 ← parseXY sb
              let pt ← parseXY sc
              .ok (st.withCur { p with paths := p.paths ++ [.curve c1 c2 pt] })
          | _ => .error (.valueError "unpack")
        | _ => .error (.valueError "IndexError")
      else if pyStarts line "ARC " then
        .ok (st.withCur { p with paths := p.paths ++ [.arc line] })
      else if pyStarts line "CLOSE" then
        .ok (st.withCur { p with paths := p.paths ++ [.close] })
      else if pyStarts line "NOTCH " then
        match splitOnce (pyDrop line 6) '\"' with
        | [coords, label] => do
            let pt ← parseXY (pyStrip coords)
            let lbl := pyStrip (rstripQuote label)
            .ok (st.withCur { p with notches := p.notches ++ [(pt.1, pt.2, lbl)] })
        | _ => .error (.valueError "unpack")
      else if pyStarts line "DRILL " then
        match splitOnce (pyDrop line 6) '\"' with
        | [coords, label] => do
            let pt ← parseXY (pyStrip coords)
            let lbl := pyStrip (rstripQuote label)
            .ok (st.withCur { p with drills := p.drills ++ [(pt.1, pt.2, lbl)] })
        | _ => .error (.valueError "unpack")
      else if pyStarts line "GRAIN " then
        match splitOnce line ' ' with
        | [_, body] =>
          match ((splitPair '-' '>' body.toList).map (fun g => pyStrip ⟨g⟩)) with
          | [sa, sb] => do
              let g1 ← parseXY sa
              let g2 ← parseXY sb
              .ok (st.withCur { p with grain := [g1, g2] })
          | _ => .error (.valueError "unpack")
        | _ => .error (.valueError "IndexError")
      else if pyStarts line "SA " then
        match splitOnce line ' ' with
        | [_, rest] => do
            let v ← parseFloat rest
            .ok (st.withCur { p with seam_allowance := Option.some v })
        | _ => .error (.valueError "IndexError")
      else .error (.valueError ("Unknown line: " ++ line))

/-- `parse_dsl(text)`: fold the line handler over the lines of the input
(`text.splitlines()` is modelled by splitting on `"\n"`; a trailing newline
yields an extra empty line, skipped by the blank-line guard exactly as
`splitlines` would omit it), then return the accumulated pieces. -/
def parseDsl (text : String) : Except Err (List Piece) :=
  (((splitChar '\n' text.toList).map (fun l => (⟨l⟩ : String))).foldlM stepLine {}).map DState.flush

/-- Componentwise control-polygon bound: every successive difference of the
control points `(a, b, c, d)` has both coordinates within `E` in absolute
value. -/
def segBound (s : Seg) (E : ℚ) : Prop :=
  |s.2.1.1 - s.1.1| ≤ E ∧ |s.2.1.2 - s.1.2| ≤ E ∧
  |s.2.2.1.1 - s.2.1.1| ≤ E ∧ |s.2.2.1.2 - s.2.1.2| ≤ E ∧
  |s.2.2.2.1 - s.2.2.1.1| ≤ E ∧ |s.2.2.2.2 - s.2.2.1.2| ≤ E

/-- The all-zero degenerate segment. -/
def zPt : Pt := ((0 : ℚ), (0 : ℚ))

/-- The flattening pass of `piece_paths_to_polyline` (`flatten.py` lines
36-58): walk the commands, tracking the pen position and whether a `CLOSE`
was seen.  `MOVE`/`LINE` append their target, a `CURVE` with no established
pen position is skipped (`continue`), otherwise its flattened points are
appended without the duplicated start point; `ARC` is ignored (placeholder).
`none` means a curve's subdivision exhausted its fuel. -/
def polyAux (tol : ℚ) (fuel : Nat) :
    List PathCmd → List Pt → Option Pt → Bool → Option (List Pt × Bool)
  | [], verts, _, closed => Option.some (verts, closed)
  | cmd :: rest, verts, pen, closed =>
    match cmd with
    | .move p => polyAux tol fuel rest (verts ++ [p]) (Option.some p) closed
    | .line p => polyAux tol fuel rest (verts ++ [p]) (Option.some p) closed
    | .curve c1 c2 p =>
      match pen with
      | Option.none => polyAux tol fuel rest verts pen closed
      | Option.some p0 =>
        match flattenCubic fuel p0 c1 c2 p tol with
        | Option.none => Option.none
        | Option.some pts => polyAux tol fuel rest (verts ++ pts.drop 1) (Option.some p) closed
    | .arc _ => polyAux tol fuel rest verts pen closed
    | .close => polyAux tol fuel rest verts pen true

/-- The closing fix-up at the end of `piece_paths_to_polyline`: if a
`CLOSE` was seen, the list is nonempty, and first ≠ last, append the first
vertex. -/
def closeUp (verts : List Pt) (closed : Bool) : List Pt :=
  match closed, verts with
  | true, v :: rest =>
      if (v :: rest).getLast? ≠ Option.some v then (v :: rest) ++ [v] else v :: rest
  | _, _ => verts

/-- `piece_paths_to_polyline(piece, tol)` over the piece's command list. -/
def piecePathsToPolyline (cmds : List PathCmd) (tol : ℚ) (fuel : Nat) : Option (List Pt) :=
  (polyAux tol fuel cmds [] Option.none false).map fun vc => closeUp vc.1 vc.2

/-- Modelled from the spec: the external `pyclipper` mitered-offset kernel
used by `offset_piece` is not part of this repository.  The spec fixes only
its contract — "closed polyline in, possibly-multiple polygons out" plus an
area function used to pick the canonical output — so the kernel is held
abstract: `execute` maps the scaled subject paths and scaled delta to a
list of output polygons, and `area` models `pyclipper.Area`.  The
miter-limit and arc-tolerance configuration is part of the opaque kernel. -/
structure ClipperKernel where
  execute : List (List (ℤ × ℤ)) → ℚ → List (List (ℤ × ℤ))
  area : List (ℤ × ℤ) → ℚ

/-- `_scale_path`: `int(round(x * SCALE))` with `SCALE = 1000`. -/
def scalePath (path : List Pt) : List (ℤ × ℤ) :=
  path.map fun p => (roundHalfEven (p.1 * 1000), roundHalfEven (p.2 * 1000))

/-- `_unscale_path`: divide the integer coordinates back by `SCALE`. -/
def unscalePath (path : List (ℤ × ℤ)) : List Pt :=
  path.map fun q => ((q.1 : ℚ) / 1000, (q.2 : ℚ) / 1000)

/-- Python's `max(solution, key=lambda p: abs(Area(p)))`: the first element
of maximal key (strictly-greater comparison keeps the earliest). -/
def pickLargest (k : ClipperKernel) (s : List (ℤ × ℤ)) (rest : List (List (ℤ × ℤ))) :
    List (ℤ × ℤ) :=
  rest.foldl (fun best p => if |k.area best| < |k.area p| then p else best) s

/-- `offset_piece(piece, delta_mm)` (`seam_allowance.py` lines 15-33),
parametric in the external clipper kernel: flatten to a polyline, return
empty when fewer than 3 vertices result, close the subject, run the kernel
on the ×1000 integer coordinates, return empty when no polygon comes back,
pick the polygon of maximal unsigned area, unscale it, and re-close it. -/
def offsetPiece (k : ClipperKernel) (fuel : Nat) (cmds : List PathCmd) (delta : ℚ) :
    Option (List Pt) :=
  match piecePathsToPolyline cmds (1/5) fuel with
  | Option.none => Option.none
  | Option.some base =>
    if base.length < 3 then Option.some []
    else
      let base2 :=
        match base with
        | [] => base
        | v :: rest =>
            if (v :: rest).getLast? ≠ Option.some v then (v :: rest) ++ [v] else v :: rest
      let solution := k.execute [scalePath base2] (delta * 1000)
      match solution with
      | [] => Option.some []
      | s :: srest =>
        let out := unscalePath (pickLargest k s srest)
        Option.some
          (match out with
           | [] => []
           | v :: rest =>
               if (v :: rest).getLast? ≠ Option.some v then (v :: rest) ++ [v] else v :: rest)

/-- A concrete contract-conforming kernel stub that always returns one
square polygon (used to exhibit that the `len(base) < 3` guard does not
catch coincident-vertex outlines). -/
def squareKernel : ClipperKernel where
  execute := fun _ _ => [[(-1000, -1000), (1000, -1000), (1000, 1000), (-1000, 1000)]]
  area := fun _ => 0

/-- Three stacked coincident vertices: one distinct point only. -/
def coincidentCmds : List PathCmd := [.move zPt, .line zPt, .line zPt]

/-- A path command declaration inside a parametric block (`main.py` lines
96-120): coordinates are expression strings, embedded here as ASTs.
`other` stands for an unmatched `"type"` tag, which the source silently
skips (the `if/elif` chain has no `else`). -/
inductive CmdDecl where
  | move (x y : Expr)
  | line (x y : Expr)
  | curve (c1x c1y c2x c2y tx ty : Expr)
  | arc (raw : String)
  | close
  | other

/-- A piece declaration of the parametric block (`p` in `main.py`'s loop). -/
structure PieceDecl where
  name : String
  params : List (String × Expr) := []
  paths : List CmdDecl := []
  notches : List (Expr × Expr × String) := []
  grain : Option (Expr × Expr × Expr × Expr) := Option.none

/-- The interpreter's output per piece (`pieces_out` entries, `main.py`
lines 139-141): `drills` is always empty in the block path. -/
structure PieceOut where
  name : String
  paths : List PathCmd
  notches : List (ℚ × ℚ × String)
  drills : List (ℚ × ℚ × String)
  grain : Option (List Pt)

/-- `_coerce_expr` (`main.py` lines 32-40): strip an optional `{...}`
wrapper from the expression string, evaluate, coerce to float.  At the AST
level the brace stripping is the identity and the outer `float()`
duplicates the one already inside `eval_expr`. -/
def coerceExpr (e : Expr) (env : EnvT) : Except Err ℚ :=
  evalExpr e env

/-- `round(x, 3)` as applied to every stored coordinate. -/
def round3 (x : ℚ) : ℚ := roundDigits x 3

/-- Evaluate an ordered parameter list into a growing environment
(`env[k] = _coerce_expr(ex, env)`, dict update modelled by shadowing). -/
def extendParams (env : EnvT) : List (String × Expr) → Except Err EnvT
  | [] => .ok env
  | (k, ex) :: rest => do
      let v ← coerceExpr ex env
      extendParams ((k, .num v) :: env) rest

/-- Interpret one path-command declaration against the piece-local
environment; `none` means the command contributed no output path. -/
def interpCmd (penv : EnvT) : CmdDecl → Except Err (Option PathCmd)
  | .move ex ey => do
      let x ← coerceExpr ex penv
      let y ← coerceExpr ey penv
      .ok (Option.some (.move (round3 x, round3 y)))
  | .line ex ey => do
      let x ← coerceExpr ex penv
      let y ← coerceExpr ey penv
      .ok (Option.some (.line (round3 x, round3 y)))
  | .curve c1x c1y c2x c2y tx ty => do
      let x1 ← coerceExpr c1x penv
      let y1 ← coerceExpr c1y penv
      let x2 ← coerceExpr c2x penv
      let y2 ← coerceExpr c2y penv
      let x3 ← coerceExpr tx penv
      let y3 ← coerceExpr ty penv
      .ok (Option.some (.curve (round3 x1, round3 y1) (round3 x2, round3 y2)
        (round3 x3, round3 y3)))
  | .arc raw => .ok (Option.some (.arc raw))
  | .close => .ok (Option.some .close)
  | .other => .ok Option.none

/-- Interpret the command list in order. -/
def interpCmds (penv : EnvT) : List CmdDecl → Except Err (List PathCmd)
  | [] => .ok []
  | c :: rest => do
      let o ← interpCmd penv c
      let others ← interpCmds penv rest
      .ok (o.toList ++ others)

/-- Interpret the notch list in order. -/
def interpNotches (penv : EnvT) : List (Expr × Expr × String) → Except Err (List (ℚ × ℚ × String))
  | [] => .ok []
  | (nx, ny, lbl) :: rest => do
      let x ← coerceExpr nx penv
      let y ← coerceExpr ny penv
      let others ← interpNotches penv rest
      .ok ((round3 x, round3 y, lbl) :: others)

/-- Interpret the optional grain axis. -/
def interpGrain (penv : EnvT) : Option (Expr × Expr × Expr × Expr) → Except Err (Option (List Pt))
  | Option.none => .ok Option.none
  | Option.some (g1, g2, g3, g4) => do
      let x1 ← coerceExpr g1 penv
      let y1 ← coerceExpr g2 penv
      let x2 ← coerceExpr g3 penv
      let y2 ← coerceExpr g4 penv
      .ok (Option.some [(round3 x1, round3 y1), (round3 x2, round3 y2)])

/-- One iteration of the piece loop (`main.py` lines 88-141): take a
piece-local copy of the shared environment (`penv = dict(env)`), extend it
with the piece's own ordered parameters, then evaluate every coordinate
expression against `penv`. -/
def interpPiece (env : EnvT) (p : PieceDecl) : Except Err PieceOut := do
  let penv ← extendParams env p.params
  let paths ← interpCmds penv p.paths
  let notches ← interpNotches penv p.notches
  let grain ← interpGrain penv p.grain
  .ok ⟨p.name, paths, notches, [], grain⟩

/-- The piece loop of `draft`, with the shared environment threaded through
explicitly so that its preservation is a statement, not a convention: each
step interprets one piece and passes the environment on. -/
def draftLoop : EnvT → List PieceDecl → Except Err (List PieceOut × EnvT)
  | env, [] => .ok ([], env)
  | env, p :: ps => do
      let po ← interpPiece env p
      let (rest, envOut) ← draftLoop env ps
      .ok (po :: rest, envOut)

/-- Interpretation of every piece against one fixed shared environment —
the "no piece-local binding is visible to a sibling" reading. -/
def interpPiecesShared (env : EnvT) : List PieceDecl → Except Err (List PieceOut)
  | [] => .ok []
  | p :: ps => do
      let po ← interpPiece env p
      let rest ← interpPiecesShared env ps
      .ok (po :: rest)

/-- The whole block path of `draft` (`main.py` lines 81-141): seed the
environment with the `M`/`F`/`O` namespaces, fold the top-level derived
parameters into it, then run the piece loop. -/
def draftBlock (M F O : List (String × Value)) (params : List (String × Expr))
    (pieces : List PieceDecl) : Except Err (List PieceOut × EnvT) := do
  let env ← extendParams [("M", .map M), ("F", .map F), ("O", .map O)] params
  draftLoop env pieces

deriving instance DecidableEq for Except

/-- The literal DSL text of the spec's parsing test. -/
def c5text : String := "PIECE p\nMOVE 0,0\nLINE 0,10\nLINE 10,10\nLINE 10,0\nCLOSE\nNOTCH 5,10 \"top\"\nGRAIN 1,1 -> 1,9\nSA 8\nEND\n"

/-- The piece that parsing `c5text` is claimed to produce. -/
def c5piece : Piece where
  name := "p"
  paths := [.move (0, 0), .line (0, 10), .line (10, 10), .line (10, 0), .close]
  notches := [(5, 10, "top")]
  drills := []
  grain := [(1, 1), (1, 9)]
  seam_allowance := Option.some 8

/-- A stripped line inside a PIECE block that matches none of the
recognized commands: it falls through the whole `if`/`elif` chain of
`parse_dsl` into the `Unknown line` branch. -/
def unrecognizedCmd (line : String) : Prop :=
  line ≠ "" ∧ pyStarts line "#" = false ∧ pyStarts line "PIECE " = false ∧ line ≠ "END" ∧
  pyStarts line "MOVE " = false ∧ pyStarts line "LINE " = false ∧ pyStarts line "CURVE " = false ∧
  pyStarts line "ARC " = false ∧ pyStarts line "CLOSE" = false ∧ pyStarts line "NOTCH " = false ∧
  pyStarts line "DRILL " = false ∧ pyStarts line "GRAIN " = false ∧ pyStarts line "SA " = false

instance (l : String) : Decidable (unrecognizedCmd l) := by
  unfold unrecognizedCmd; infer_instance

/-- The loop is the identity on an empty stack, whatever the fuel. -/
theorem flattenLoop_nil (tol : ℚ) (f : Nat) (out : List Pt) :
    flattenLoop tol f [] out = Option.some out := by
  cases f <;> rfl

/-- Unfolding one loop iteration. -/
theorem flattenLoop_cons (tol : ℚ) (f : Nat) (s : Seg) (rest : List Seg) (out : List Pt) :
    flattenLoop tol (f + 1) (s :: rest) out =
      if flatOk s tol then flattenLoop tol f rest (out ++ [s.2.2.2])
      else flattenLoop tol f (segL s :: segR s :: rest) out := rfl

/-- Out of fuel on a nonempty stack. -/
theorem flattenLoop_zero (tol : ℚ) (s : Seg) (rest : List Seg) (out : List Pt) :
    flattenLoop tol 0 (s :: rest) out = Option.none := rfl

/-- A smaller tolerance only makes the flatness test harder. -/
theorem flatOk_mono {s : Seg} {tol tol' : ℚ} (hle : tol' ≤ tol) (h : flatOk s tol') :
    flatOk s tol := by
  obtain ⟨h0, h1, h2⟩ := h
  have ht : 0 ≤ tol := le_trans h0 hle
  have hsq : tol' ^ 2 ≤ tol ^ 2 := by nlinarith
  exact ⟨ht, le_trans h1 hsq, le_trans h2 hsq⟩

/-- More fuel never changes a finished run. -/
theorem flattenLoop_fuel_mono {tol : ℚ} :
    ∀ {f : Nat} {st : List Seg} {out r : List Pt},
      flattenLoop tol f st out = Option.some r →
      ∀ {f' : Nat}, f ≤ f' → flattenLoop tol f' st out = Option.some r := by
  intro f
  induction f with
  | zero =>
    intro st out r h f' _
    cases st with
    | nil => rw [flattenLoop_nil] at h; rw [flattenLoop_nil]; exact h
    | cons s rest => rw [flattenLoop_zero] at h; exact absurd h (by simp)
  | succ g ih =>
    intro st out r h f' hle
    cases st with
    | nil => rw [flattenLoop_nil] at h; rw [flattenLoop_nil]; exact h
    | cons s rest =>
      obtain ⟨g', rfl⟩ : ∃ g', f' = g' + 1 := ⟨f' - 1, by omega⟩
      have hg : g ≤ g' := by omega
      rw [flattenLoop_cons] at h
      rw [flattenLoop_cons]
      by_cases hok : flatOk s tol
      · rw [if_pos hok] at h ⊢; exact ih h hg
      · rw [if_neg hok] at h ⊢; exact ih h hg

/-- The output list only ever grows: a finished run extends its accumulator. -/
theorem flattenLoop_extendsOut {tol : ℚ} :
    ∀ {f : Nat} {st : List Seg} {out r : List Pt},
      flattenLoop tol f st out = Option.some r → ∃ t, r = out ++ t := by
  intro f
  induction f with
  | zero =>
    intro st out r h
    cases st with
    | nil => rw [flattenLoop_nil] at h; exact ⟨[], by simp [← Option.some_inj.mp h]⟩
    | cons s rest => rw [flattenLoop_zero] at h; exact absurd h (by simp)
  | succ g ih =>
    intro st out r h
    cases st with
    | nil => rw [flattenLoop_nil] at h; exact ⟨[], by simp [← Option.some_inj.mp h]⟩
    | cons s rest =>
      rw [flattenLoop_cons] at h
      by_cases hok : flatOk s tol
      · rw [if_pos hok] at h
        obtain ⟨t, ht⟩ := ih h
        exact ⟨s.2.2.2 :: t, by simp [ht]⟩
      · rw [if_neg hok] at h
        exact ih h

/-- Runs compose: finishing a first stack and then a second, with summed
fuel, is a run on the concatenated stack. -/
theorem flattenLoop_append {tol : ℚ} :
    ∀ {f1 : Nat} {st1 : List Seg} {out m : List Pt},
      flattenLoop tol f1 st1 out = Option.some m →
      ∀ {f2 : Nat} {st2 : List Seg} {r : List Pt},
        flattenLoop tol f2 st2 m = Option.some r →
        flattenLoop tol (f1 + f2) (st1 ++ st2) out = Option.some r := by
  intro f1
  induction f1 with
  | zero =>
    intro st1 out m h1 f2 st2 r h2
    cases st1 with
    | nil =>
      rw [flattenLoop_nil] at h1
      cases Option.some_inj.mp h1
      simpa using flattenLoop_fuel_mono h2 (by omega)
    | cons s rest => rw [flattenLoop_zero] at h1; exact absurd h1 (by simp)
  | succ g ih =>
    intro st1 out m h1 f2 st2 r h2
    cases st1 with
    | nil =>
      rw [flattenLoop_nil] at h1
      cases Option.some_inj.mp h1
      simpa using flattenLoop_fuel_mono h2 (by omega)
    | cons s rest =>
      rw [flattenLoop_cons] at h1
      have hstep : g + 1 + f2 = (g + f2) + 1 := by omega
      rw [List.cons_append, hstep, flattenLoop_cons]
      by_cases hok : flatOk s tol
      · rw [if_pos hok] at h1; rw [if_pos hok]
        exact ih h1 h2
      · rw [if_neg hok] at h1; rw [if_neg hok]
        have := ih h1 h2
        simpa using this

/-- Runs decompose: a finished run on a concatenated stack splits into a
run on the first part and a run on the second, each within the original
fuel. -/
theorem flattenLoop_split {tol : ℚ} :
    ∀ {f : Nat} {st1 st2 : List Seg} {out r : List Pt},
      flattenLoop tol f (st1 ++ st2) out = Option.some r →
      ∃ f1 f2 m, f1 ≤ f ∧ f2 ≤ f ∧
        flattenLoop tol f1 st1 out = Option.some m ∧
        flattenLoop tol f2 st2 m = Option.some r := by
  intro f
  induction f with
  | zero =>
    intro st1 st2 out r h
    cases st1 with
    | nil =>
      exact ⟨0, 0, out, le_refl _, le_refl _, flattenLoop_nil _ _ _, by simpa using h⟩
    | cons s rest => rw [List.cons_append, flattenLoop_zero] at h; exact absurd h (by simp)
  | succ g ih =>
    intro st1 st2 out r h
    cases st1 with
    | nil =>
      exact ⟨0, g + 1, out, by omega, le_refl _, flattenLoop_nil _ _ _, by simpa using h⟩
    | cons s rest =>
      rw [List.cons_append, flattenLoop_cons] at h
      by_cases hok : flatOk s tol
      · rw [if_pos hok] at h
        obtain ⟨f1, f2, m, hf1, hf2, hrun1, hrun2⟩ := ih h
        refine ⟨f1 + 1, f2, m, by omega, by omega, ?_, hrun2⟩
        rw [flattenLoop_cons, if_pos hok]; exact hrun1
      · rw [if_neg hok] at h
        have h' : flattenLoop tol g ((segL s :: segR s :: rest) ++ st2) out = Option.some r := by
          simpa using h
        obtain ⟨f1, f2, m, hf1, hf2, hrun1, hrun2⟩ := ih h'
        refine ⟨f1 + 1, f2, m, by omega, by omega, ?_, hrun2⟩
        rw [flattenLoop_cons, if_neg hok]; exact hrun1

/-- A finished run on a single segment appends at least one point. -/
theorem flattenLoop_single_pos {tol : ℚ} :
    ∀ {f : Nat} {s : Seg} {out r : List Pt},
      flattenLoop tol f [s] out = Option.some r → out.length + 1 ≤ r.length := by
  intro f
  induction f using Nat.strong_induction_on with
  | _ f ih =>
    intro s out r h
    cases f with
    | zero => rw [flattenLoop_zero] at h; exact absurd h (by simp)
    | succ g =>
      rw [flattenLoop_cons] at h
      by_cases hok : flatOk s tol
      · rw [if_pos hok, flattenLoop_nil] at h
        cases Option.some_inj.mp h
        simp
      · rw [if_neg hok] at h
        have h' : flattenLoop tol g ([segL s] ++ [segR s]) out = Option.some r := by simpa using h
        obtain ⟨f1, f2, m, hf1, hf2, hrun1, hrun2⟩ := flattenLoop_split h'
        have hm := ih f1 (by omega) hrun1
        have hr := ih f2 (by omega) hrun2
        omega

/-- A finished run on a single segment ends at that segment's endpoint. -/
theorem flattenLoop_single_last {tol : ℚ} :
    ∀ {f : Nat} {s : Seg} {out r : List Pt},
      flattenLoop tol f [s] out = Option.some r → r.getLast? = Option.some s.2.2.2 := by
  intro f
  induction f using Nat.strong_induction_on with
  | _ f ih =>
    intro s out r h
    cases f with
    | zero => rw [flattenLoop_zero] at h; exact absurd h (by simp)
    | succ g =>
      rw [flattenLoop_cons] at h
      by_cases hok : flatOk s tol
      · rw [if_pos hok, flattenLoop_nil] at h
        cases Option.some_inj.mp h
        simp
      · rw [if_neg hok] at h
        have h' : flattenLoop tol g ([segL s] ++ [segR s]) out = Option.some r := by simpa using h
        obtain ⟨f1, f2, m, hf1, hf2, hrun1, hrun2⟩ := flattenLoop_split h'
        have := ih f2 (by omega) hrun2
        have hd : (segR s).2.2.2 = s.2.2.2 := by
          obtain ⟨a, b, c, d⟩ := s; rfl
        rw [hd] at this
        exact this

/-- Monotone refinement, single-segment form: on the same segment a run at
a smaller tolerance appends at least as many points as a run at a larger
one. -/
theorem flattenLoop_count_mono {tol tol' : ℚ} (hle : tol' ≤ tol) :
    ∀ {f : Nat} {s : Seg} {out out' r r' : List Pt} {f' : Nat},
      flattenLoop tol f [s] out = Option.some r →
      flattenLoop tol' f' [s] out' = Option.some r' →
      r.length + out'.length ≤ r'.length + out.length := by
  intro f
  induction f using Nat.strong_induction_on with
  | _ f ih =>
    intro s out out' r r' f' h h'
    cases f with
    | zero => rw [flattenLoop_zero] at h; exact absurd h (by simp)
    | succ g =>
      rw [flattenLoop_cons] at h
      by_cases hok : flatOk s tol
      · rw [if_pos hok, flattenLoop_nil] at h
        cases Option.some_inj.mp h
        have := flattenLoop_single_pos h'
        simp only [List.length_append, List.length_cons, List.length_nil]
        omega
      · have hok' : ¬ flatOk s tol' := fun hx => hok (flatOk_mono hle hx)
        rw [if_neg hok] at h
        cases f' with
        | zero => rw [flattenLoop_zero] at h'; exact absurd h' (by simp)
        | succ g' =>
          rw [flattenLoop_cons, if_neg hok'] at h'
          have hsp : flattenLoop tol g ([segL s] ++ [segR s]) out = Option.some r := by simpa using h
          have hsp' : flattenLoop tol' g' ([segL s] ++ [segR s]) out' = Option.some r' := by simpa using h'
          obtain ⟨f1, f2, m, hf1, hf2, hrun1, hrun2⟩ := flattenLoop_split hsp
          obtain ⟨f1', f2', m', hf1', hf2', hrun1', hrun2'⟩ := flattenLoop_split hsp'
          have hL := ih f1 (by omega) hrun1 hrun1'
          have hR := ih f2 (by omega) hrun2 hrun2'
          omega

/-- The clamped point-to-segment distance is at most the distance to the
segment's first endpoint. -/
theorem distSq_le_left (p a b : Pt) :
    distSqToSegment p a b ≤ (p.1 - a.1) ^ 2 + (p.2 - a.2) ^ 2 := by
  unfold distSqToSegment
  by_cases hd : b.1 - a.1 = 0 ∧ b.2 - a.2 = 0
  · rw [if_pos hd]
  · rw [if_neg hd]
    set dx := b.1 - a.1 with hdx
    set dy := b.2 - a.2 with hdy
    set u := p.1 - a.1 with hu
    set v := p.2 - a.2 with hv
    have hC : 0 < dx * dx + dy * dy := by
      rcases not_and_or.mp hd with h1 | h1
      · have : 0 < dx * dx := mul_self_pos.mpr h1
        nlinarith [mul_self_nonneg dy]
      · have : 0 < dy * dy := mul_self_pos.mpr h1
        nlinarith [mul_self_nonneg dx]
    set B := u * dx + v * dy with hB
    set C := dx * dx + dy * dy with hCdef
    set t := max 0 (min 1 (B / C)) with ht
    have goal_eq : (p.1 - (a.1 + t * dx)) ^ 2 + (p.2 - (a.2 + t * dy)) ^ 2 =
        (u - t * dx) ^ 2 + (v - t * dy) ^ 2 := by rw [hu, hv]; ring
    rw [goal_eq]
    rcases le_or_lt B 0 with hBle | hBpos
    · have ht0 : B / C ≤ 0 := div_nonpos_of_nonpos_of_nonneg hBle hC.le
      have hmin : min 1 (B / C) = B / C := min_eq_right (le_trans ht0 zero_le_one)
      have hmax : t = 0 := by rw [ht, hmin]; exact max_eq_left ht0
      rw [hmax]; exact le_of_eq (by ring)
    · have ht0 : 0 < B / C := div_pos hBpos hC
      have hmin0 : 0 ≤ min 1 (B / C) := le_min zero_le_one ht0.le
      have hteq : t = min 1 (B / C) := by rw [ht]; exact max_eq_right hmin0
      have htnn : 0 ≤ t := by rw [hteq]; exact hmin0
      have htle : t ≤ B / C := by rw [hteq]; exact min_le_right _ _
      have htC : t * C ≤ B := by
        have := (le_div_iff₀ hC).mp htle
        linarith
      nlinarith [mul_le_mul_of_nonneg_left htC htnn, mul_nonneg htnn hBpos.le]

/-- The clamped point-to-segment distance is at most the distance to the
segment's second endpoint. -/
theorem distSq_le_right (p a b : Pt) :
    distSqToSegment p a b ≤ (p.1 - b.1) ^ 2 + (p.2 - b.2) ^ 2 := by
  unfold distSqToSegment
  by_cases hd : b.1 - a.1 = 0 ∧ b.2 - a.2 = 0
  · rw [if_pos hd]
    have h1 : b.1 = a.1 := by linarith [hd.1]
    have h2 : b.2 = a.2 := by linarith [hd.2]
    rw [h1, h2]
  · rw [if_neg hd]
    set dx := b.1 - a.1 with hdx
    set dy := b.2 - a.2 with hdy
    set u := p.1 - a.1 with hu
    set v := p.2 - a.2 with hv
    have hC : 0 < dx * dx + dy * dy := by
      rcases not_and_or.mp hd with h1 | h1
      · have : 0 < dx * dx := mul_self_pos.mpr h1
        nlinarith [mul_self_nonneg dy]
      · have : 0 < dy * dy := mul_self_pos.mpr h1
        nlinarith [mul_self_nonneg dx]
    set B := u * dx + v * dy with hB
    set C := dx * dx + dy * dy with hCdef
    set t := max 0 (min 1 (B / C)) with ht
    have goal_eq : (p.1 - (a.1 + t * dx)) ^ 2 + (p.2 - (a.2 + t * dy)) ^ 2 =
        (u - t * dx) ^ 2 + (v - t * dy) ^ 2 := by rw [hu, hv]; ring
    have rhs_eq : (p.1 - b.1) ^ 2 + (p.2 - b.2) ^ 2 =
        (u - dx) ^ 2 + (v - dy) ^ 2 := by rw [hu, hv, hdx, hdy]; ring
    rw [goal_eq, rhs_eq]
    rcases le_or_lt 1 (B / C) with hge | hlt
    · have hmin : min 1 (B / C) = 1 := min_eq_left hge
      have hmax : t = 1 := by rw [ht, hmin]; exact max_eq_right zero_le_one
      rw [hmax]; exact le_of_eq (by ring)
    · have hmin : min 1 (B / C) = B / C := min_eq_right hlt.le
      have hCB : B < C := by
        have := (div_lt_one hC).mp hlt
        linarith
      rcases le_or_lt B 0 with hBle | hBpos
      · have hmax : t = 0 := by
          rw [ht, hmin]
          exact max_eq_left (div_nonpos_of_nonpos_of_nonneg hBle hC.le)
        rw [hmax]
        nlinarith
      · have ht0 : 0 < B / C := div_pos hBpos hC
        have hteq : t = B / C := by rw [ht, hmin]; exact max_eq_right ht0.le
        have htC : t * C = B := by rw [hteq]; field_simp
        have htlt : t < 1 := by rw [hteq]; exact hlt
        nlinarith [mul_nonneg hC.le (sq_nonneg (1 - t))]

/-- De Casteljau bisection halves the control-polygon bound (left half). -/
theorem segBound_segL {s : Seg} {E : ℚ} (h : segBound s E) : segBound (segL s) (E / 2) := by
  obtain ⟨⟨a1, a2⟩, ⟨b1, b2⟩, ⟨c1, c2⟩, ⟨d1, d2⟩⟩ := s
  obtain ⟨h1, h2, h3, h4, h5, h6⟩ := h
  rw [abs_le] at h1 h2 h3 h4 h5 h6
  simp only [segBound, segL, mid] at *
  refine ⟨?_, ?_, ?_, ?_, ?_, ?_⟩ <;>
    (rw [abs_le]; constructor <;> linarith)

/-- De Casteljau bisection halves the control-polygon bound (right half). -/
theorem segBound_segR {s : Seg} {E : ℚ} (h : segBound s E) : segBound (segR s) (E / 2) := by
  obtain ⟨⟨a1, a2⟩, ⟨b1, b2⟩, ⟨c1, c2⟩, ⟨d1, d2⟩⟩ := s
  obtain ⟨h1, h2, h3, h4, h5, h6⟩ := h
  rw [abs_le] at h1 h2 h3 h4 h5 h6
  simp only [segBound, segR, mid] at *
  refine ⟨?_, ?_, ?_, ?_, ?_, ?_⟩ <;>
    (rw [abs_le]; constructor <;> linarith)

/-- A segment whose control polygon fits in `E` passes the flatness test as
soon as `2E² ≤ tol²`. -/
theorem flatOk_of_bound {s : Seg} {E tol : ℚ} (hb : segBound s E)
    (ht : 0 ≤ tol) (h2 : 2 * E ^ 2 ≤ tol ^ 2) : flatOk s tol := by
  obtain ⟨h1, h2', h3, h4, h5, h6⟩ := hb
  have hE : 0 ≤ E := le_trans (abs_nonneg _) h1
  refine ⟨ht, ?_, ?_⟩
  · have hd := distSq_le_left s.2.1 s.1 s.2.2.2
    have e1 : (s.2.1.1 - s.1.1) ^ 2 ≤ E ^ 2 := sq_le_sq' (by linarith [(abs_le.mp h1).1]) (abs_le.mp h1).2
    have e2 : (s.2.1.2 - s.1.2) ^ 2 ≤ E ^ 2 := sq_le_sq' (by linarith [(abs_le.mp h2').1]) (abs_le.mp h2').2
    linarith
  · have hd := distSq_le_right s.2.2.1 s.1 s.2.2.2
    have e1 : (s.2.2.1.1 - s.2.2.2.1) ^ 2 ≤ E ^ 2 := by
      have := abs_le.mp h5
      have h' : |s.2.2.1.1 - s.2.2.2.1| ≤ E := by rw [abs_sub_comm]; exact h5
      exact sq_le_sq' (by linarith [(abs_le.mp h').1]) (abs_le.mp h').2
    have e2 : (s.2.2.1.2 - s.2.2.2.2) ^ 2 ≤ E ^ 2 := by
      have h' : |s.2.2.1.2 - s.2.2.2.2| ≤ E := by rw [abs_sub_comm]; exact h6
      exact sq_le_sq' (by linarith [(abs_le.mp h').1]) (abs_le.mp h').2
    linarith

/-- Termination core: a stack holding one segment whose control-polygon
bound satisfies `2E² ≤ 4^k·tol²` finishes within some fuel. -/
theorem flattenLoop_term {tol : ℚ} (htol : 0 < tol) :
    ∀ (k : Nat) (s : Seg) (E : ℚ) (out : List Pt), segBound s E →
      2 * E ^ 2 ≤ 4 ^ k * tol ^ 2 →
      ∃ f r, flattenLoop tol f [s] out = Option.some r := by
  intro k
  induction k with
  | zero =>
    intro s E out hb h2
    have hok : flatOk s tol := flatOk_of_bound hb htol.le (by simpa using h2)
    exact ⟨1, out ++ [s.2.2.2], by rw [flattenLoop_cons, if_pos hok, flattenLoop_nil]⟩
  | succ k ih =>
    intro s E out hb h2
    by_cases hok : flatOk s tol
    · exact ⟨1, out ++ [s.2.2.2], by rw [flattenLoop_cons, if_pos hok, flattenLoop_nil]⟩
    · have hchild : 2 * (E / 2) ^ 2 ≤ 4 ^ k * tol ^ 2 := by
        have : (4 : ℚ) ^ (k + 1) = 4 * 4 ^ k := by ring
        rw [this] at h2
        nlinarith
      obtain ⟨fL, m, hL⟩ := ih (segL s) (E / 2) out (segBound_segL hb) hchild
      obtain ⟨fR, r, hR⟩ := ih (segR s) (E / 2) m (segBound_segR hb) hchild
      refine ⟨fL + fR + 1, r, ?_⟩
      rw [flattenLoop_cons, if_neg hok]
      have := flattenLoop_append hL hR
      simpa using this

theorem segL_z : segL (zPt, zPt, zPt, zPt) = (zPt, zPt, zPt, zPt) := by
  simp [segL, mid, zPt]

theorem segR_z : segR (zPt, zPt, zPt, zPt) = (zPt, zPt, zPt, zPt) := by
  simp [segR, mid, zPt]

theorem distSq_z : distSqToSegment zPt zPt zPt = 0 := by
  norm_num [distSqToSegment, zPt]

theorem flatOk_z {tol : ℚ} (h : 0 ≤ tol) : flatOk (zPt, zPt, zPt, zPt) tol := by
  refine ⟨h, ?_, ?_⟩ <;> · rw [distSq_z]; positivity

theorem not_flatOk_neg {s : Seg} {tol : ℚ} (h : tol < 0) : ¬ flatOk s tol :=
  fun hx => absurd hx.1 (not_le.mpr h)

theorem neg_tol_stuck :
    ∀ (f : Nat) (st : List Seg) (out : List Pt), st ≠ [] →
      (∀ s ∈ st, s = (zPt, zPt, zPt, zPt)) → flattenLoop (-1) f st out = Option.none := by
  intro f
  induction f with
  | zero =>
    intro st out hne _
    cases st with
    | nil => exact absurd rfl hne
    | cons s rest => exact flattenLoop_zero _ _ _ _
  | succ g ih =>
    intro st out hne hmem
    cases st with
    | nil => exact absurd rfl hne
    | cons s rest =>
      have hs : s = (zPt, zPt, zPt, zPt) := hmem s (by simp)
      rw [flattenLoop_cons, if_neg (not_flatOk_neg (by norm_num))]
      subst hs
      rw [segL_z, segR_z]
      refine ih _ _ (by simp) ?_
      intro x hx
      simp only [List.mem_cons] at hx
      rcases hx with h | h | h
      · exact h
      · exact h
      · exact hmem x (by simp [h])

/-- C9: the code has no tolerance guard.  With a negative tolerance the
subdivision loop never terminates (no amount of fuel finishes it), and with
zero tolerance on coincident control points it returns normally; no
configuration error exists anywhere in `flatten_cubic`. -/
theorem no_tolerance_guard :
    (∀ f : Nat, flattenCubic f zPt zPt zPt zPt (-1) = Option.none) ∧
      flattenCubic 1 zPt zPt zPt zPt 0 = Option.some [zPt, zPt] := by
  constructor
  · intro f
    exact neg_tol_stuck f [(zPt, zPt, zPt, zPt)] [zPt] (by simp) (by simp)
  · rw [flattenCubic, flattenLoop_cons, if_pos (flatOk_z le_rfl), flattenLoop_nil]
    rfl

/-- C8 counterexample: the four control points `(0,0), (2,0), (1,0), (1,0)`
all lie on the line `y = 0` (collinear), yet the code's chord distance for
the first interior control point is `1`, not `0` (the distance is taken to
the clamped chord segment), and at tolerance `1/2` the first iteration
subdivides instead of accepting. -/
theorem collinear_chord_dist_nonzero :
    ([((0:ℚ),(0:ℚ)).2, ((2:ℚ),(0:ℚ)).2, ((1:ℚ),(0:ℚ)).2, ((1:ℚ),(0:ℚ)).2] = [0, 0, 0, 0]) ∧
    distSqToSegment ((2:ℚ), (0:ℚ)) (0, 0) (1, 0) = 1 ∧
    flattenCubic 1 ((0:ℚ), (0:ℚ)) (2, 0) (1, 0) (1, 0) (1/2) = Option.none := by
  have hd : distSqToSegment ((2:ℚ), (0:ℚ)) (0, 0) (1, 0) = 1 := by
    norm_num [distSqToSegment, min_def, max_def]
  refine ⟨by norm_num, hd, ?_⟩
  have hnot : ¬ flatOk (((0:ℚ), (0:ℚ)), (2, 0), (1, 0), (1, 0)) (1/2) := by
    intro hx
    obtain ⟨-, h1, -⟩ := hx
    rw [hd] at h1
    norm_num at h1
  rw [flattenCubic, flattenLoop_cons, if_neg hnot, flattenLoop_zero]

/-- C8 (amended): for every cubic Bezier and every tolerance > 0 the
subdivision loop terminates (some fuel finishes it).  Coincident control
points have chord distance exactly 0 and return immediately, but merely
collinear control points can have a nonzero clamped chord distance and may
still subdivide before terminating. -/
theorem flatten_cubic_terminates (p0 p1 p2 p3 : Pt) (tol : ℚ) (h : 0 < tol) :
    ∃ f r, flattenCubic f p0 p1 p2 p3 tol = Option.some r := by
  set E := |p1.1 - p0.1| + |p1.2 - p0.2| + |p2.1 - p1.1| + |p2.2 - p1.2| +
    |p3.1 - p2.1| + |p3.2 - p2.2| with hE
  have hb : segBound (p0, p1, p2, p3) E := by
    refine ⟨?_, ?_, ?_, ?_, ?_, ?_⟩ <;>
      · rw [hE]
        have n1 := abs_nonneg (p1.1 - p0.1)
        have n2 := abs_nonneg (p1.2 - p0.2)
        have n3 := abs_nonneg (p2.1 - p1.1)
        have n4 := abs_nonneg (p2.2 - p1.2)
        have n5 := abs_nonneg (p3.1 - p2.1)
        have n6 := abs_nonneg (p3.2 - p2.2)
        linarith
  obtain ⟨k, hk⟩ := pow_unbounded_of_one_lt (2 * E ^ 2 / tol ^ 2) (by norm_num : (1:ℚ) < 4)
  have htol2 : (0:ℚ) < tol ^ 2 := by positivity
  have h2 : 2 * E ^ 2 ≤ 4 ^ k * tol ^ 2 := by
    rw [div_lt_iff₀ htol2] at hk
    linarith
  exact flattenLoop_term h k (p0, p1, p2, p3) E [p0] hb h2

theorem flatten_cubic_terminates_witness :
    (0 : ℚ) < 1 ∧ ∃ f r, flattenCubic f zPt zPt zPt zPt 1 = Option.some r :=
  ⟨by norm_num, flatten_cubic_terminates zPt zPt zPt zPt 1 (by norm_num)⟩

/-- C3: a finished flatten run is nonempty, starts at `p0`, ends at `p3`,
and a finished run at a smaller positive tolerance on the same curve never
produces fewer points. -/
theorem flatten_endpoints_and_refinement (p0 p1 p2 p3 : Pt) (tol tol' : ℚ)
    (f f' : Nat) (r r' : List Pt)
    (h : flattenCubic f p0 p1 p2 p3 tol = Option.some r)
    (h' : flattenCubic f' p0 p1 p2 p3 tol' = Option.some r')
    (_hpos : 0 < tol') (hle : tol' ≤ tol) :
    r ≠ [] ∧ r.head? = Option.some p0 ∧ r.getLast? = Option.some p3 ∧
      r.length ≤ r'.length := by
  unfold flattenCubic at h h'
  have hlast := flattenLoop_single_last h
  have hmono := flattenLoop_count_mono hle h h'
  obtain ⟨t, rfl⟩ := flattenLoop_extendsOut h
  refine ⟨by simp, by simp, hlast, ?_⟩
  simp only [List.length_append] at hmono ⊢
  omega

theorem flatten_endpoints_witness :
    flattenCubic 1 zPt zPt zPt zPt 1 = Option.some [zPt, zPt] ∧
    flattenCubic 1 zPt zPt zPt zPt (1/2) = Option.some [zPt, zPt] ∧
    (0 : ℚ) < 1/2 ∧ (1/2 : ℚ) ≤ 1 ∧
    ([zPt, zPt] ≠ [] ∧ ([zPt, zPt]).head? = Option.some zPt ∧
      ([zPt, zPt]).getLast? = Option.some zPt ∧
      ([zPt, zPt]).length ≤ ([zPt, zPt]).length) := by
  have h1 : flattenCubic 1 zPt zPt zPt zPt 1 = Option.some [zPt, zPt] := by
    rw [flattenCubic, flattenLoop_cons, if_pos (flatOk_z (by norm_num)), flattenLoop_nil]
    rfl
  have h2 : flattenCubic 1 zPt zPt zPt zPt (1/2) = Option.some [zPt, zPt] := by
    rw [flattenCubic, flattenLoop_cons, if_pos (flatOk_z (by norm_num)), flattenLoop_nil]
    rfl
  exact ⟨h1, h2, by norm_num, by norm_num,
    flatten_endpoints_and_refinement zPt zPt zPt zPt 1 (1/2) 1 1 [zPt, zPt] [zPt, zPt]
      h1 h2 (by norm_num) (by norm_num)⟩

/-- C4 counterexample: a piece whose flattened outline is three coincident
vertices (one distinct point, so fewer than 3 distinct vertices) passes the
`len(base) < 3` guard, reaches the external kernel, and with a
contract-conforming kernel the offset is a nonempty square rather than the
empty sequence the claim requires. -/
theorem coincident_outline_not_guarded :
    piecePathsToPolyline coincidentCmds (1/5) 1 = Option.some [zPt, zPt, zPt] ∧
    ([zPt, zPt, zPt].dedup.length = 1) ∧
    offsetPiece squareKernel 1 coincidentCmds 5 =
      Option.some [((-1 : ℚ), (-1 : ℚ)), (1, -1), (1, 1), (-1, 1), (-1, -1)] ∧
    Option.some [((-1 : ℚ), (-1 : ℚ)), (1, -1), (1, 1), (-1, 1), (-1, -1)] ≠
      (Option.some [] : Option (List Pt)) := by
  have hpoly : piecePathsToPolyline coincidentCmds (1/5) 1 = Option.some [zPt, zPt, zPt] := by
    norm_num [piecePathsToPolyline, polyAux, closeUp, coincidentCmds, zPt]
  refine ⟨hpoly, by norm_num [zPt], ?_, by simp⟩
  unfold offsetPiece
  rw [hpoly]
  norm_num [zPt, scalePath, unscalePath, pickLargest, squareKernel, roundHalfEven]

/-- C4 (amended): whenever the flattened outline has fewer than 3 vertices
counted with multiplicity, `offset_piece` returns the empty sequence for
every kernel and every delta, without invoking the kernel; outlines with
three or more vertices — distinct or not — are passed on to the kernel. -/
theorem offset_short_outline_empty (k : ClipperKernel) (fuel : Nat)
    (cmds : List PathCmd) (delta : ℚ) (base : List Pt)
    (h : piecePathsToPolyline cmds (1/5) fuel = Option.some base)
    (hlen : base.length < 3) : offsetPiece k fuel cmds delta = Option.some [] := by
  unfold offsetPiece
  simp only [h]
  rw [if_pos hlen]

theorem offset_short_outline_witness :
    piecePathsToPolyline [PathCmd.move zPt, PathCmd.line zPt] (1/5) 1 =
      Option.some [zPt, zPt] ∧
    ([zPt, zPt] : List Pt).length < 3 ∧
    offsetPiece squareKernel 1 [PathCmd.move zPt, PathCmd.line zPt] 5 = Option.some [] := by
  have hpoly : piecePathsToPolyline [PathCmd.move zPt, PathCmd.line zPt] (1/5) 1 =
      Option.some [zPt, zPt] := by
    norm_num [piecePathsToPolyline, polyAux, closeUp, zPt]
  exact ⟨hpoly, by norm_num,
    offset_short_outline_empty squareKernel 1 _ 5 [zPt, zPt] hpoly (by norm_num)⟩

/-- C6: the piece loop returns the shared environment unchanged, and every
piece is interpreted against that same shared environment — piece-local
parameter bindings are never visible to a sibling piece. -/
theorem piece_env_isolation (env : EnvT) (ps : List PieceDecl) :
    draftLoop env ps = (interpPiecesShared env ps).map (fun outs => (outs, env)) := by
  induction ps with
  | nil => rfl
  | cons p rest ih =>
    simp only [draftLoop, interpPiecesShared, ih]
    cases interpPiece env p with
    | error e => rfl
    | ok po =>
      cases interpPiecesShared env rest with
      | error e => rfl
      | ok outs => rfl


/-- C1: the sandbox does not fail closed on string literals.  Evaluating
the expression `"'2'"` (a string constant) in the empty environment
returns `2.0`: `_eval` passes the `ast.Constant` value through unchecked
and the final `float(...)` coerces the string into a number, where the
spec requires an `EvaluationError` for any non-arithmetic construct. -/
theorem string_constant_is_coerced : evalExpr (.strLit "2") [] = .ok 2 := by
  simp +decide [evalExpr, evalAst, floatOfValue, pyFloat, pyStrip, splitChar, digitsVal,
    Bind.bind, Except.bind]

/-- C2: any division whose divisor evaluates to the number 0 makes the
whole evaluation fail with an error (Python raises `ZeroDivisionError`,
or `TypeError` for a non-numeric dividend); it never produces a numeric
result such as infinity. -/
theorem division_by_zero_fails (env : EnvT) (l r : Expr)
    (h : evalAst r env = .ok (.num 0)) :
    ∃ e, evalExpr (.binop .div l r) env = .error e := by
  unfold evalExpr
  cases hl : evalAst l env with
  | error e => exact ⟨e, by simp [evalAst, hl, h, Bind.bind, Except.bind]⟩
  | ok lv =>
    cases lv with
    | num x => exact ⟨.zeroDivisionError, by simp [evalAst, hl, h, applyBin, Bind.bind, Except.bind]⟩
    | str s => exact ⟨.typeError, by simp [evalAst, hl, h, applyBin, Bind.bind, Except.bind]⟩
    | map m => exact ⟨.typeError, by simp [evalAst, hl, h, applyBin, Bind.bind, Except.bind]⟩
    | fn f => exact ⟨.typeError, by simp [evalAst, hl, h, applyBin, Bind.bind, Except.bind]⟩

theorem division_by_zero_witness :
    evalAst (.num 0) [] = .ok (.num 0) ∧
      ∃ e, evalExpr (.binop .div (.num 1) (.num 0)) [] = .error e :=
  ⟨rfl, division_by_zero_fails [] (.num 1) (.num 0) rfl⟩

/-- C10: keyword arguments on a call are silently discarded: evaluation of
a call never depends on its keyword arguments, so
`round(2.567, ndigits=2)` evaluates as `round(2.567) = 3`, while honoring
`ndigits=2` would give `2.57 ≠ 3`. -/
theorem kwargs_silently_dropped :
    (∀ (env : EnvT) (f : Expr) (args : List Expr) (kwargs : List (String × Expr)),
      evalAst (.call f args kwargs) env = evalAst (.call f args []) env)
    ∧ evalExpr (.call (.name "round") [.num (2567/1000)] [("ndigits", .num 2)]) [] = .ok 3
    ∧ applyFn .round [.num (2567/1000), .num 2] = .ok (.num (257/100))
    ∧ (257 : ℚ)/100 ≠ 3 := by
  refine ⟨fun env f args kwargs => rfl, ?_, ?_, by norm_num⟩
  · have hf : ⌊(2567 : ℚ)/1000⌋ = 2 := by
      rw [Int.floor_eq_iff] ; norm_num
    simp [evalExpr, evalAst, evalList, lookupName, envGet, applyCall, applyFn,
      roundHalfEven, hf, floatOfValue, Bind.bind, Except.bind]
    norm_num
  · have hf : ⌊(2567 : ℚ)/1000 * 10 ^ (2:ℤ)⌋ = 256 := by
      rw [Int.floor_eq_iff] ; norm_num
    simp [applyFn, roundDigits, roundHalfEven, hf]
    norm_num

set_option maxHeartbeats 1000000 in
/-- C5: parsing the literal ten-line DSL text yields exactly one piece
named `p` with the five path commands `MOVE 0,0`, three `LINE`s and
`CLOSE`, one notch `(5,10,"top")`, grain axis `[(1,1),(1,9)]` and seam
allowance `8`. -/
theorem literal_dsl_parse : parseDsl c5text = .ok [c5piece] := by
  simp +decide [c5text, c5piece, parseDsl, stepLine, splitChar, splitPair, splitOnce, joinChar,
    pyStrip, pyStarts, pyDrop, parseXY, parseFloat, pyFloat, digitsVal, rstripQuote,
    DState.flush, DState.withCur, List.foldlM, Except.bind, Except.map, Bind.bind,
    pure, Except.pure, Option.toList]

/-- C7 counterexample: the diagnostic for the unrecognized line `BOGUS`
(line 2 of the input) is exactly `"Unknown line: BOGUS"`, which contains
no digit at all — in particular not the 1-indexed line number 2 the claim
requires. -/
theorem unknown_line_no_number :
    parseDsl "PIECE p\nBOGUS\nEND" = .error (.valueError "Unknown line: BOGUS") ∧
    ("Unknown line: BOGUS").toList.all (fun c => !c.isDigit) = true := by
  constructor
  · simp +decide [parseDsl, stepLine, splitChar, splitOnce, joinChar,
      pyStrip, pyStarts, DState.flush, List.foldlM, Except.bind, Except.map, Bind.bind,
      pure, Except.pure, Option.toList]
  · decide

/-- C7 (amended): a non-empty, non-comment line inside a PIECE block that
matches no recognized command fails with a ParseError whose diagnostic
names the offending line's stripped content; no line number is included,
since the parser does not track line numbers. -/
theorem unknown_line_diag (st : DState) (p : Piece) (raw : String)
    (hc : st.cur = Option.some p) (hu : unrecognizedCmd (pyStrip raw)) :
    stepLine st raw = .error (.valueError ("Unknown line: " ++ pyStrip raw)) := by
  obtain ⟨h1, h2, h3, h4, h5, h6, h7, h8, h9, h10, h11, h12, h13⟩ := hu
  simp [stepLine, hc, h1, h2, h3, h4, h5, h6, h7, h8, h9, h10, h11, h12, h13]

theorem unknown_line_diag_witness :
    (⟨[], Option.some { name := "p" }⟩ : DState).cur = Option.some { name := "p" } ∧
    unrecognizedCmd (pyStrip "BOGUS") ∧
    stepLine ⟨[], Option.some { name := "p" }⟩ "BOGUS" =
      .error (.valueError ("Unknown line: " ++ pyStrip "BOGUS")) :=
  ⟨rfl, by decide, unknown_line_diag _ { name := "p" } "BOGUS" rfl (by decide)⟩
